import Mathlib

/-!
Verification development for the pattern-based file synchronizer
(`copy-files`) and the environment accessor of the boring-ssr-stack
repository.

The JavaScript source is shallowly embedded: paths are plain strings
(POSIX separator `/`, as `path.sep` is on the platform the tool targets),
the filesystem is an explicit tree value, asynchronous filesystem calls
become explicit state passing, thrown exceptions become `Except`, and
`process.exit` becomes an explicit outcome constructor.  The third-party
`minimatch` matcher is kept abstract as a function parameter; the source
only fixes which arguments it receives (the normalized path, the pattern,
and the `dot := true` option).
-/

namespace BoringSSR

/-! ## Node `path` (POSIX) primitives, modelled after Node's implementation -/

/-- Split on the `/` separator (the behavior of JavaScript
`String.split('/')`), implemented by structural recursion so that the
kernel can evaluate it. -/
def splitSlashAux : List Char → List Char → List String
  | [], acc => [String.mk acc.reverse]
  | c :: cs, acc =>
    if c = '/' then String.mk acc.reverse :: splitSlashAux cs []
    else splitSlashAux cs (c :: acc)

/-- `String.split('/')`. -/
def splitSlash (s : String) : List String :=
  splitSlashAux s.data []

/-- `Array.join('/')`. -/
def joinSlash : List String → String
  | [] => ""
  | [a] => a
  | a :: rest => a ++ "/" ++ joinSlash rest

/-- Whether a path starts with the `/` separator. -/
def isAbsolutePath (p : String) : Bool :=
  match p.data with
  | '/' :: _ => true
  | _ => false

/-- Whether a path ends with the `/` separator. -/
def endsWithSlash (p : String) : Bool :=
  match p.data.getLast? with
  | some '/' => true
  | _ => false

/-- Segment-level normalization used by Node's `path.normalize` /
`path.resolve`: drops empty and `.` segments, applies `..`
(`allowAbove` keeps leading `..` segments, as in relative
normalization; absolute resolution discards them at the root). -/
def normSegs (allowAbove : Bool) (segs : List String) : List String :=
  segs.foldl (fun acc s =>
    if s = "" || s = "." then acc
    else if s = ".." then
      match acc.getLast? with
      | none => if allowAbove then [".."] else []
      | some t => if t = ".." then (if allowAbove then acc ++ [".."] else acc) else acc.dropLast
    else acc ++ [s]) []

/-- Node `path.resolve(p)` with a single argument: prepend the current
working directory when `p` is not absolute, then normalize to an
absolute path. -/
def pathResolve (cwd p : String) : String :=
  let full := if isAbsolutePath p then p else cwd ++ "/" ++ p
  "/" ++ joinSlash (normSegs false (splitSlash full))

/-- Node `path.posix.normalize`. -/
def pathNormalize (p : String) : String :=
  if p = "" then "." else
  let isAbs := isAbsolutePath p
  let trail := endsWithSlash p
  let core := joinSlash (normSegs (!isAbs) (splitSlash p))
  if core = "" then (if isAbs then "/" else if trail then "./" else ".")
  else
    let core := if trail then core ++ "/" else core
    if isAbs then "/" ++ core else core

/-- Node `path.posix.join` for two arguments: concatenate with `/`
(skipping empty arguments) and normalize. -/
def pathJoin (a b : String) : String :=
  if a = "" && b = "" then "."
  else if a = "" then pathNormalize b
  else if b = "" then pathNormalize a
  else pathNormalize (a ++ "/" ++ b)

/-- Scan used by Node `path.posix.dirname`: walking indices from the end
down to 1, skip trailing separators, and return the index of the last
separator before the basename (Node's `end` variable), if any. -/
def findDirEnd (cs : List Char) : Nat → Bool → Option Nat
  | 0, _ => none
  | i+1, matchedSlash =>
    if cs.getD (i+1) ' ' = '/' then
      if matchedSlash then findDirEnd cs i true else some (i+1)
    else findDirEnd cs i false

/-- Node `path.posix.dirname`. -/
def dirname (p : String) : String :=
  let cs := p.data
  if cs.isEmpty then "." else
  let hasRoot := cs.headD ' ' = '/'
  match findDirEnd cs (cs.length - 1) true with
  | none => if hasRoot then "/" else "."
  | some e => if hasRoot && e = 1 then "//" else String.mk (cs.take e)

/-- Scan used by Node `path.posix.basename`: walking indices from the
end down to 0, record the exclusive end of the basename (first
non-separator from the right) and its start (one past the separator
that precedes it).  Returns `(start, end?)`. -/
def baseScan (cs : List Char) : Nat → Option Nat → Nat × Option Nat
  | 0, e =>
    if cs.getD 0 ' ' = '/' then
      match e with
      | some _ => (1, e)
      | none => (0, none)
    else
      match e with
      | some _ => (0, e)
      | none => (0, some 1)
  | i+1, e =>
    if cs.getD (i+1) ' ' = '/' then
      match e with
      | some _ => (i+2, e)
      | none => baseScan cs i none
    else
      match e with
      | some _ => baseScan cs i e
      | none => baseScan cs i (some (i+2))

/-- Node `path.posix.basename` (without the extension argument). -/
def basename (p : String) : String :=
  let cs := p.data
  if cs.isEmpty then "" else
  match baseScan cs (cs.length - 1) none with
  | (_, none) => ""
  | (s, some e) => String.mk ((cs.take e).drop s)

/-- Length of the common prefix of two segment lists (Node
`path.relative`'s common-ancestor computation). -/
def commonPrefixLen : List String → List String → Nat
  | a :: as, b :: bs => if a = b then commonPrefixLen as bs + 1 else 0
  | _, _ => 0

/-- Node `path.posix.relative`: resolve both paths, strip the common
ancestor, then climb with `..` and descend into the target. -/
def pathRelative (cwd from_ to_ : String) : String :=
  let f := pathResolve cwd from_
  let t := pathResolve cwd to_
  if f = t then "" else
  let fs := (splitSlash f).filter (fun s => s ≠ "")
  let ts := (splitSlash t).filter (fun s => s ≠ "")
  let common := commonPrefixLen fs ts
  joinSlash (List.replicate (fs.length - common) ".." ++ ts.drop common)

/-! ## The copy-files utility: pattern classification and glob base -/

/-- `normalizePath` from the source: split on the platform separator and
join with `/`.  With the POSIX separator this is the identity, spelled
exactly as the source computes it. -/
def normalizePath (filePath : String) : String :=
  joinSlash (splitSlash filePath)

/-- The wildcard characters of the source's `hasGlobChars` regex
`/[*?[\]]/`. -/
def isGlobChar (c : Char) : Bool :=
  c = '*' || c = '?' || c = '[' || c = ']'

/-- Index of the first wildcard character (`String.match` against
`hasGlobChars`), if any. -/
def firstGlobIndex (s : String) : Option Nat :=
  s.data.findIdx? isGlobChar

/-- `hasGlobChars.test`. -/
def hasGlobChars (s : String) : Bool :=
  (firstGlobIndex s).isSome

/-- `base.lastIndexOf(sep)` for the `/` separator, as an `Option`. -/
def lastSlashIndex (s : String) : Option Nat :=
  match s.data.reverse.findIdx? (fun c => c = '/') with
  | some k => some (s.data.length - 1 - k)
  | none => none

/-- `findGlobBase` from the source.  Note the guard `!match?.index` is
also taken when the first wildcard sits at index 0 of the normalized
pattern (JavaScript falsiness of the number 0), in which case the
function returns `path.dirname(pattern)` instead of running the
truncate-and-resolve branch. -/
def findGlobBase (cwd pattern : String) : String :=
  let normalized := normalizePath pattern
  match firstGlobIndex normalized with
  | none => dirname pattern
  | some 0 => dirname pattern
  | some i =>
    let base := String.mk (normalized.data.take i)
    match lastSlashIndex base with
    | some j => pathResolve cwd (String.mk (base.data.take j))
    | none => pathResolve cwd "."

/-- The glob-base algorithm exactly as the specification words it:
normalize separators, locate the first wildcard character, take the
substring before it, truncate at the last path separator before that
index, and resolve to an absolute path; with no wildcard at all, fall
back to the direct parent directory.  (Reference definition for the
refinement comparison with `findGlobBase`.) -/
def findGlobBaseSpec (cwd pattern : String) : String :=
  let normalized := normalizePath pattern
  match firstGlobIndex normalized with
  | none => dirname pattern
  | some i =>
    let base := String.mk (normalized.data.take i)
    match lastSlashIndex base with
    | some j => pathResolve cwd (String.mk (base.data.take j))
    | none => pathResolve cwd "."

/-! ## Filesystem model and the recursive file finder -/

mutual
/-- A directory entry as seen through `fs.promises.readdir(dir,
{withFileTypes: true})`: a regular file, a directory (whose `Bool`
records whether reading it succeeds — `false` models a `readdir` that
throws, e.g. a permission error), or any other entry kind (symlink,
socket, ...), which the source skips. -/
inductive FSTree where
  | file : String → FSTree
  | dir : String → Bool → FSList → FSTree
  | other : String → FSTree
deriving DecidableEq, Repr

/-- The entry list of a directory. -/
inductive FSList where
  | nil : FSList
  | cons : FSTree → FSList → FSList
deriving DecidableEq, Repr
end

/-- `entry.name`. -/
def FSTree.entryName : FSTree → String
  | .file n => n
  | .dir n _ _ => n
  | .other n => n

/-- The options object the source passes to `minimatch`. -/
structure MatchOptions where
  dot : Bool
deriving DecidableEq, Repr

/-- One discovered file: `{ absolute, relative }`. -/
structure MatchedFile where
  absolute : String
  relative : String
deriving DecidableEq, Repr

mutual
/-- `findFiles(dir, pattern, baseDir)` from the source, applied to the
tree `t` that models the directory at path `dir`.  `mm` is the abstract
`minimatch`.  Reading a non-directory or an unreadable directory
raises, modelled as `Except.error`. -/
def findFilesT (mm : String → String → MatchOptions → Bool) (cwd pattern baseDir dir : String) :
    FSTree → Except String (List MatchedFile)
  | .dir _ true es => findFilesL mm cwd pattern baseDir dir es
  | .dir _ false _ => .error ("EACCES: readdir " ++ dir)
  | _ => .error ("ENOTDIR: readdir " ++ dir)

/-- The entry loop of `findFiles`: directories recurse, regular files
are matched against the pattern with `dot := true`, anything else is
skipped; the first raised error aborts the walk. -/
def findFilesL (mm : String → String → MatchOptions → Bool) (cwd pattern baseDir dir : String) :
    FSList → Except String (List MatchedFile)
  | .nil => .ok []
  | .cons e rest =>
    let fullPath := pathJoin dir e.entryName
    let head : Except String (List MatchedFile) :=
      match e with
      | .dir _ _ _ => findFilesT mm cwd pattern baseDir fullPath e
      | .file _ =>
        .ok (if mm (normalizePath fullPath) pattern { dot := true } then
          [{ absolute := fullPath, relative := pathRelative cwd baseDir fullPath }] else [])
      | .other _ => .ok []
    match head with
    | .error err => .error err
    | .ok hs =>
      match findFilesL mm cwd pattern baseDir dir rest with
      | .error err => .error err
      | .ok ts => .ok (hs ++ ts)
end

mutual
/-- Reference enumeration following the spec's words: every regular
file under the directory, recursing into every subdirectory, with no
filtering of any kind (dotfiles included). -/
def specFilesT (dir : String) : FSTree → List String
  | .dir _ _ es => specFilesL dir es
  | _ => []

/-- Entry-list case of `specFilesT`. -/
def specFilesL (dir : String) : FSList → List String
  | .nil => []
  | .cons e rest =>
    (match e with
     | .file n => [pathJoin dir n]
     | .dir n _ _ => specFilesT (pathJoin dir n) e
     | .other _ => []) ++ specFilesL dir rest
end

mutual
/-- Every directory in the tree (the root included) can be read. -/
def treeReadableT : FSTree → Bool
  | .dir _ ok es => ok && treeReadableL es
  | _ => true

/-- Entry-list case of `treeReadableT`. -/
def treeReadableL : FSList → Bool
  | .nil => true
  | .cons e rest => treeReadableT e && treeReadableL rest
end

/-! ## Destination filesystem state and the copier -/

/-- The destination side of the filesystem: the set of directories that
exist (as a list) and the files with their byte contents. -/
structure DestFS where
  dirs : List String
  files : List (String × String)
deriving DecidableEq, Repr

/-- Content of the destination file at `p`, if present. -/
def lookupFile : List (String × String) → String → Option String
  | [], _ => none
  | e :: fs, p => if e.1 = p then some e.2 else lookupFile fs p

/-- Writing a file: unconditionally replaces any previous content at
that path (`fs.promises.copyFile` truncates and overwrites). -/
def writeFile (d : DestFS) (p c : String) : DestFS :=
  { d with files := d.files.filter (fun e => e.1 ≠ p) ++ [(p, c)] }

/-- All ancestor directories that `fs.promises.mkdir(p, {recursive:
true})` guarantees to exist afterwards, for an absolute `p` (each
non-empty prefix of its segment list). -/
def dirAncestors (p : String) : List String :=
  let segs := (splitSlash p).filter (fun s => s ≠ "")
  (List.range segs.length).map (fun k => "/" ++ joinSlash (segs.take (k+1)))

/-- `fs.promises.mkdir(p, { recursive: true })` on the destination
state: create each missing ancestor, in root-to-leaf order. -/
def mkdirRec (d : DestFS) (p : String) : DestFS :=
  { d with dirs := (dirAncestors p).foldl (fun l x => if x ∈ l then l else l ++ [x]) d.dirs }

/-- `copyFiles(files, output)` from the source: for each file, join the
destination root with its relative path, create the destination
directory, and copy.  `read` models reading the source file's bytes; a
failing read models a failing `copyFile`, which aborts the pass. -/
def copyFiles (read : String → Option String) :
    List MatchedFile → String → DestFS → Except String DestFS
  | [], _, d => .ok d
  | f :: rest, output, d =>
    let destPath := pathJoin output f.relative
    let destDir := dirname destPath
    let d' := mkdirRec d destDir
    match read f.absolute with
    | none => .error ("EACCES: copyFile " ++ f.absolute)
    | some c => copyFiles read rest output (writeFile d' destPath c)

/-- Content written last to destination path `q` by a pass over
`files` (the source copies in list order, so a later element of the
list overrides an earlier write to the same path). -/
def lastWriteContent (read : String → Option String) (output : String) :
    List MatchedFile → String → Option String
  | [], _ => none
  | f :: rest, q =>
    (lastWriteContent read output rest q).or
      (if pathJoin output f.relative = q then read f.absolute else none)

/-! ## Pattern processing -/

/-- What `fs.promises.stat` reports for a path (`none` models a stat
that throws, which the source turns into `null` via `.catch`). -/
inductive StatKind where
  | fileKind : StatKind
  | dirKind : StatKind
  | otherKind : StatKind
deriving DecidableEq, Repr

/-- `processPattern(pattern)` from the source.  `stat` models
`fs.promises.stat`; `treeAt` gives the directory tree rooted at a path
(used by `findFiles`).  The result pairs the matches with the warnings
printed to stderr; a raised error (from `findFiles`) propagates. -/
def processPattern (stat : String → Option StatKind) (treeAt : String → FSTree)
    (mm : String → String → MatchOptions → Bool) (cwd pattern : String) :
    Except String (List MatchedFile × List String) :=
  if hasGlobChars pattern then
    let baseDir := findGlobBase cwd pattern
    let normalizedPattern := normalizePath pattern
    match stat baseDir with
    | some .dirKind =>
      match findFilesT mm cwd normalizedPattern baseDir baseDir (treeAt baseDir) with
      | .ok fs => .ok (fs, [])
      | .error e => .error e
    | _ =>
      .ok ([], ["Warning: Base directory \"" ++ baseDir ++ "\" does not exist for pattern \"" ++
        pattern ++ "\""])
  else
    match stat pattern with
    | some .fileKind => .ok ([{ absolute := pattern, relative := basename pattern }], [])
    | _ => .ok ([], ["Warning: Pattern \"" ++ pattern ++ "\" matches no files"])

/-- The aggregation loop of `processAllPatterns`: process each pattern
in command-line order and concatenate matches (and warnings); a raised
error aborts the loop. -/
def collectMatches (stat : String → Option StatKind) (treeAt : String → FSTree)
    (mm : String → String → MatchOptions → Bool) (cwd : String) :
    List String → Except String (List MatchedFile × List String)
  | [] => .ok ([], [])
  | p :: rest =>
    match processPattern stat treeAt mm cwd p with
    | .error e => .error e
    | .ok (ms, ws) =>
      match collectMatches stat treeAt mm cwd rest with
      | .error e => .error e
      | .ok (ms', ws') => .ok (ms ++ ms', ws ++ ws')

/-- The matches a single pattern contributes to a pass (empty when the
pattern raises, in which case the pass never reaches aggregation). -/
def patternMatches (stat : String → Option StatKind) (treeAt : String → FSTree)
    (mm : String → String → MatchOptions → Bool) (cwd pattern : String) : List MatchedFile :=
  match processPattern stat treeAt mm cwd pattern with
  | .ok (ms, _) => ms
  | .error _ => []

/-- Outcome of one synchronization pass: `exited` models a direct
`process.exit` (it carries the untouched destination state), `raised` a
thrown error, `completed` a successful copy. -/
inductive PassResult where
  | exited : Nat → String → DestFS → PassResult
  | raised : String → PassResult
  | completed : Nat → DestFS → PassResult
deriving DecidableEq, Repr

/-- `processAllPatterns()` from the source: aggregate all matches; with
zero matches overall print an error and `process.exit(1)` (before any
copy); otherwise run the copier and report the file count. -/
def processAllPatterns (stat : String → Option StatKind) (treeAt : String → FSTree)
    (mm : String → String → MatchOptions → Bool) (read : String → Option String)
    (cwd : String) (patterns : List String) (outputDir : String) (d : DestFS) : PassResult :=
  match collectMatches stat treeAt mm cwd patterns with
  | .error e => .raised e
  | .ok (allFiles, _) =>
    if allFiles.length = 0 then
      .exited 1 "Error: No files matched the specified patterns" d
    else
      match copyFiles read allFiles outputDir d with
      | .error e => .raised e
      | .ok d' => .completed allFiles.length d'

/-! ## Watch mode: the debounce timer and the re-sync callback -/

/-- What becomes of the watch session after one debounce-triggered
pass. -/
inductive WatchOutcome where
  | continues : Option String → WatchOutcome
  | terminated : Nat → WatchOutcome
deriving DecidableEq, Repr

/-- The body of the debounce timer callback in `handleFileChange`:
`try { await processAllPatterns() } catch (error) { console.error(...) }`.
A thrown error is caught and logged and the session continues; a
successful pass continues silently; a `process.exit` inside the pass is
not an exception and terminates the process. -/
def watchPassOutcome (r : PassResult) : WatchOutcome :=
  match r with
  | .raised e => .continues (some ("[copy-files] Error during file copy: " ++ e))
  | .exited c _ _ => .terminated c
  | .completed _ _ => .continues none

/-- The debounce quiet period hardcoded in `handleFileChange`
(`setTimeout(..., 100)`), in milliseconds. -/
def debounceDelayMs : Nat := 100

/-- Debounce timer state: the pending timer's deadline (if armed) and
how many re-sync passes have fired so far. -/
structure DebounceState where
  deadline : Option Nat
  fires : Nat
deriving DecidableEq, Repr

/-- One change event at time `t`, as `handleFileChange` processes it on
the single-threaded event loop: a pending timer whose deadline has
already passed fired before the event; a still-pending timer is
cancelled (`clearTimeout`); then a fresh timer is armed for
`t + delay` (`setTimeout`). -/
def stepEvent (delay : Nat) (s : DebounceState) (t : Nat) : DebounceState :=
  let s : DebounceState :=
    match s.deadline with
    | some dl => if dl ≤ t then { deadline := none, fires := s.fires + 1 } else s
    | none => s
  { s with deadline := some (t + delay) }

/-- Run a chronological list of change events from the idle state, then
let any still-pending timer fire once the events stop. -/
def runEvents (delay : Nat) (events : List Nat) : DebounceState :=
  let s := events.foldl (stepEvent delay) ({ deadline := none, fires := 0 } : DebounceState)
  match s.deadline with
  | some _ => { deadline := none, fires := s.fires + 1 }
  | none => s

/-- The event list is chronological and every consecutive gap is
strictly inside the quiet period. -/
def withinWindow (delay : Nat) : List Nat → Bool
  | t₁ :: t₂ :: rest => (t₁ ≤ t₂ && t₂ < t₁ + delay) && withinWindow delay (t₂ :: rest)
  | _ => true

/-! ## The environment accessor (`env.get`) -/

/-- JavaScript template interpolation of a possibly-absent value:
an omitted argument is `undefined`, which interpolates as the string
`"undefined"`. -/
def jsTemplate : Option String → String
  | some s => s
  | none => "undefined"

/-- `get(key, defaultValue)` from `packages/shared/env/index.js`:
`process.env[key] || ` followed by the template-interpolated default.
An absent variable is `undefined` (falsy) and an empty-string value is
falsy, so both fall through to the interpolated default. -/
def envGet (env : String → Option String) (key : String) (defaultValue : Option String) : String :=
  match env key with
  | some v => if v ≠ "" then v else jsTemplate defaultValue
  | none => jsTemplate defaultValue

/-! ## Example worlds used by witnesses and counterexamples -/

/-- The tree at `/r/src` in the running example: `a/b/icon.svg` and a
hidden `.env`. -/
def exTree : FSTree :=
  .dir "src" true (.cons (.dir "a" true (.cons (.dir "b" true
    (.cons (.file "icon.svg") .nil)) .nil)) (.cons (.file ".env") .nil))

/-- A tree whose subdirectory `a` cannot be read. -/
def exTreeBad : FSTree :=
  .dir "src" true (.cons (.dir "a" false .nil) .nil)

/-- `stat` for the running example: `/w/logo.png` is a regular file,
`/r/src` and `/w` are directories. -/
def exStat : String → Option StatKind := fun p =>
  if p = "/w/logo.png" then some .fileKind
  else if p = "/r/src" || p = "/w" then some .dirKind
  else none

/-- Directory trees for the running example: `/r/src` holds `exTree`,
`/w` is empty. -/
def exTreeAt : String → FSTree := fun p =>
  if p = "/r/src" then exTree else .dir "w" true .nil

/-- A matcher accepting `.svg` paths (a stand-in instantiation of the
abstract `minimatch`). -/
def exMM : String → String → MatchOptions → Bool := fun p _ _ =>
  p.data.reverse.take 4 == ['g', 'v', 's', '.']

/-- A matcher accepting everything. -/
def exMMAll : String → String → MatchOptions → Bool := fun _ _ _ => true

/-- Source-file contents for the running example. -/
def exRead : String → Option String := fun p =>
  if p = "/r/src/a/b/icon.svg" then some "SVG"
  else if p = "/r/src/.env" then some "ENV"
  else none

/-- A reader on which every copy fails. -/
def exReadNone : String → Option String := fun _ => none

end BoringSSR

namespace BoringSSR

/-! ## Lemmas about the copier -/

theorem option_or_self_left {α : Type} (a b : Option α) : a.or (a.or b) = a.or b := by
  cases a <;> simp [Option.or]

theorem lookupFile_filter_append (l : List (String × String)) (p c q : String) :
    lookupFile (l.filter (fun e => e.1 ≠ p) ++ [(p, c)]) q =
      if q = p then some c else lookupFile l q := by
  induction l with
  | nil =>
    by_cases hq : q = p
    · simp [lookupFile, hq]
    · have hpq : p ≠ q := fun h => hq h.symm
      simp [lookupFile, hq, hpq]
  | cons e fs ih =>
    by_cases he : e.1 = p
    · rw [List.filter_cons_of_neg (by simpa using he)]
      rw [ih]
      by_cases hq : q = p
      · simp [hq]
      · have hne : e.1 ≠ q := by rw [he]; exact fun h => hq h.symm
        simp [lookupFile, hq, hne]
    · rw [List.filter_cons_of_pos (by simpa using he)]
      by_cases heq : e.1 = q
      · have hq : q ≠ p := fun h => he (heq.trans h)
        simp [lookupFile, heq, hq]
      · simp only [List.cons_append]
        simp only [lookupFile, if_neg heq]
        simpa [ne_eq, decide_not] using ih

theorem lookupFile_writeFile (d : DestFS) (p c q : String) :
    lookupFile (writeFile d p c).files q = if q = p then some c else lookupFile d.files q :=
  lookupFile_filter_append d.files p c q

theorem mkdirRec_files (d : DestFS) (p : String) : (mkdirRec d p).files = d.files := rfl

theorem writeFile_dirs (d : DestFS) (p c : String) : (writeFile d p c).dirs = d.dirs := rfl

theorem mem_foldl_insert_of_mem_init (xs : List String) :
    ∀ (l : List String) (a : String), a ∈ l →
      a ∈ xs.foldl (fun l x => if x ∈ l then l else l ++ [x]) l := by
  induction xs with
  | nil => intro l a h; exact h
  | cons x xs ih =>
    intro l a h
    simp only [List.foldl_cons]
    by_cases hx : x ∈ l
    · rw [if_pos hx]; exact ih l a h
    · rw [if_neg hx]; exact ih _ a (List.mem_append_left _ h)

theorem mem_foldl_insert_of_mem_list (xs : List String) :
    ∀ (l : List String) (a : String), a ∈ xs →
      a ∈ xs.foldl (fun l x => if x ∈ l then l else l ++ [x]) l := by
  induction xs with
  | nil => intro l a h; cases h
  | cons x xs ih =>
    intro l a h
    simp only [List.foldl_cons]
    rcases List.mem_cons.mp h with rfl | h
    · by_cases hx : a ∈ l
      · rw [if_pos hx]; exact mem_foldl_insert_of_mem_init xs l a hx
      · rw [if_neg hx]
        exact mem_foldl_insert_of_mem_init xs _ a (List.mem_append_right _ (List.mem_singleton.mpr rfl))
    · exact ih _ a h

theorem foldl_insert_of_subset (xs : List String) :
    ∀ (l : List String), (∀ a ∈ xs, a ∈ l) →
      xs.foldl (fun l x => if x ∈ l then l else l ++ [x]) l = l := by
  induction xs with
  | nil => intro l _; rfl
  | cons x xs ih =>
    intro l h
    simp only [List.foldl_cons]
    rw [if_pos (h x (List.mem_cons_self x xs))]
    exact ih l (fun a ha => h a (List.mem_cons_of_mem x ha))

theorem mem_mkdirRec_of_mem (d : DestFS) (p a : String) (h : a ∈ d.dirs) :
    a ∈ (mkdirRec d p).dirs :=
  mem_foldl_insert_of_mem_init (dirAncestors p) d.dirs a h

theorem mem_mkdirRec_of_ancestor (d : DestFS) (p a : String) (h : a ∈ dirAncestors p) :
    a ∈ (mkdirRec d p).dirs :=
  mem_foldl_insert_of_mem_list (dirAncestors p) d.dirs a h

theorem mkdirRec_of_present (d : DestFS) (p : String)
    (h : ∀ a ∈ dirAncestors p, a ∈ d.dirs) : mkdirRec d p = d := by
  unfold mkdirRec
  rw [foldl_insert_of_subset (dirAncestors p) d.dirs h]

/-! ## Lemmas about the recursive file finder -/

/-- On an entirely readable entry list, the walk succeeds and returns
precisely the files the spec enumerates, filtered by the matcher (with
`dot := true`) and paired with their base-relative paths. -/
theorem findL_ok (mm : String → String → MatchOptions → Bool) (cwd pattern baseDir : String)
    (dir : String) (l : FSList) (h : treeReadableL l = true) :
    findFilesL mm cwd pattern baseDir dir l =
      .ok (((specFilesL dir l).filter
        (fun p => mm (normalizePath p) pattern { dot := true })).map
        (fun p => { absolute := p, relative := pathRelative cwd baseDir p })) := by
  cases l with
  | nil => rfl
  | cons e rest =>
    have hread : treeReadableT e = true ∧ treeReadableL rest = true := by
      simpa [treeReadableL, Bool.and_eq_true] using h
    have htail := findL_ok mm cwd pattern baseDir dir rest hread.2
    cases e with
    | file n =>
      simp only [findFilesL, FSTree.entryName]
      rw [htail]
      cases hb : mm (normalizePath (pathJoin dir n)) pattern { dot := true } <;>
        simp [specFilesL, List.filter_append, List.map_append, List.filter_cons, hb]
    | dir n rok es =>
      have hsub : rok = true ∧ treeReadableL es = true := by
        simpa [treeReadableT, Bool.and_eq_true] using hread.1
      obtain ⟨rfl, hes⟩ := hsub
      have hhead := findL_ok mm cwd pattern baseDir (pathJoin dir n) es hes
      simp only [findFilesL, FSTree.entryName, findFilesT]
      rw [hhead, htail]
      simp [specFilesL, specFilesT, List.filter_append, List.map_append]
    | other n =>
      simp only [findFilesL, FSTree.entryName]
      rw [htail]
      simp [specFilesL]
termination_by sizeOf l

/-- Directory variant of `findL_ok`: the walk of a fully readable
directory succeeds with the spec's file list. -/
theorem findT_ok (mm : String → String → MatchOptions → Bool)
    (cwd pattern baseDir dir name : String) (rok : Bool) (es : FSList)
    (h : treeReadableT (.dir name rok es) = true) :
    findFilesT mm cwd pattern baseDir dir (.dir name rok es) =
      .ok (((specFilesT dir (.dir name rok es)).filter
        (fun p => mm (normalizePath p) pattern { dot := true })).map
        (fun p => { absolute := p, relative := pathRelative cwd baseDir p })) := by
  have hsub : rok = true ∧ treeReadableL es = true := by
    simpa [treeReadableT, Bool.and_eq_true] using h
  obtain ⟨rfl, hes⟩ := hsub
  simp only [findFilesT, specFilesT]
  exact findL_ok mm cwd pattern baseDir dir es hes

/-- If some reachable directory cannot be read, the walk of the entry
list raises. -/
theorem findL_err (mm : String → String → MatchOptions → Bool) (cwd pattern baseDir : String)
    (dir : String) (l : FSList) (h : treeReadableL l = false) :
    ∃ e, findFilesL mm cwd pattern baseDir dir l = .error e := by
  cases l with
  | nil => simp [treeReadableL] at h
  | cons e rest =>
    cases e with
    | file n =>
      have hrest : treeReadableL rest = false := by
        simpa [treeReadableL, treeReadableT] using h
      obtain ⟨err, herr⟩ := findL_err mm cwd pattern baseDir dir rest hrest
      refine ⟨err, ?_⟩
      simp only [findFilesL, FSTree.entryName]
      rw [herr]
    | other n =>
      have hrest : treeReadableL rest = false := by
        simpa [treeReadableL, treeReadableT] using h
      obtain ⟨err, herr⟩ := findL_err mm cwd pattern baseDir dir rest hrest
      refine ⟨err, ?_⟩
      simp only [findFilesL, FSTree.entryName]
      rw [herr]
    | dir n rok es =>
      cases hok : rok with
      | false =>
        refine ⟨"EACCES: readdir " ++ pathJoin dir n, ?_⟩
        subst hok
        simp only [findFilesL, FSTree.entryName, findFilesT]
      | true =>
        subst hok
        cases hes : treeReadableL es with
        | false =>
          obtain ⟨err, herr⟩ := findL_err mm cwd pattern baseDir (pathJoin dir n) es hes
          refine ⟨err, ?_⟩
          simp only [findFilesL, FSTree.entryName, findFilesT]
          rw [herr]
        | true =>
          have hrest : treeReadableL rest = false := by
            simpa [treeReadableL, treeReadableT, hes] using h
          obtain ⟨err, herr⟩ := findL_err mm cwd pattern baseDir dir rest hrest
          refine ⟨err, ?_⟩
          simp only [findFilesL, FSTree.entryName, findFilesT]
          rw [findL_ok mm cwd pattern baseDir (pathJoin dir n) es hes, herr]
termination_by sizeOf l

/-- Directory variant of `findL_err`: an unreadable directory anywhere
in the tree makes the walk raise. -/
theorem findT_err (mm : String → String → MatchOptions → Bool)
    (cwd pattern baseDir dir name : String) (rok : Bool) (es : FSList)
    (h : treeReadableT (.dir name rok es) = false) :
    ∃ e, findFilesT mm cwd pattern baseDir dir (.dir name rok es) = .error e := by
  cases hok : rok with
  | false =>
    subst hok
    exact ⟨"EACCES: readdir " ++ dir, rfl⟩
  | true =>
    subst hok
    have hes : treeReadableL es = false := by
      simpa [treeReadableT] using h
    obtain ⟨err, herr⟩ := findL_err mm cwd pattern baseDir dir es hes
    exact ⟨err, by simp only [findFilesT]; exact herr⟩

/-- Every match a successful walk returns carries the relative path
computed against the supplied base directory. -/
theorem findFilesT_relative (mm : String → String → MatchOptions → Bool)
    (cwd pattern baseDir dir : String) (t : FSTree) (ms : List MatchedFile)
    (h : findFilesT mm cwd pattern baseDir dir t = .ok ms) :
    ∀ m ∈ ms, m.relative = pathRelative cwd baseDir m.absolute := by
  cases t with
  | file n => simp [findFilesT] at h
  | other n => simp [findFilesT] at h
  | dir name rok es =>
    cases hr : treeReadableT (.dir name rok es) with
    | false =>
      obtain ⟨e, he⟩ := findT_err mm cwd pattern baseDir dir name rok es hr
      rw [he] at h
      cases h
    | true =>
      rw [findT_ok mm cwd pattern baseDir dir name rok es hr] at h
      cases h
      intro m hm
      obtain ⟨p, _, rfl⟩ := List.mem_map.mp hm
      rfl

/-- A successful pass read every source file. -/
theorem copyFiles_ok_reads (read : String → Option String) :
    ∀ (files : List MatchedFile) (out : String) (d d' : DestFS),
      copyFiles read files out d = .ok d' →
      ∀ f ∈ files, (read f.absolute).isSome := by
  intro files
  induction files with
  | nil => intro out d d' _ f hf; cases hf
  | cons g rest ih =>
    intro out d d' h f hf
    unfold copyFiles at h
    cases hr : read g.absolute with
    | none => rw [hr] at h; cases h
    | some c =>
      rw [hr] at h
      rcases List.mem_cons.mp hf with rfl | hf'
      · simp [hr]
      · exact ih out _ d' h f hf'

/-- If every source file is readable, the pass succeeds. -/
theorem copyFiles_ok_of_reads (read : String → Option String) :
    ∀ (files : List MatchedFile) (out : String),
      (∀ f ∈ files, (read f.absolute).isSome) →
      ∀ d : DestFS, ∃ d', copyFiles read files out d = .ok d' := by
  intro files
  induction files with
  | nil => intro out _ d; exact ⟨d, rfl⟩
  | cons g rest ih =>
    intro out h d
    cases hr : read g.absolute with
    | none =>
      have := h g (List.mem_cons_self g rest)
      rw [hr] at this; cases this
    | some c =>
      obtain ⟨d', hd'⟩ := ih out (fun f hf => h f (List.mem_cons_of_mem g hf)) _
      exact ⟨d', by unfold copyFiles; rw [hr]; exact hd'⟩

/-- The destination file contents after a successful pass: at every
path, the last write of the pass if there was one, otherwise whatever
was there before.  In particular a write happens unconditionally — the
prior destination content never enters the picture. -/
theorem copyFiles_lookup (read : String → Option String) :
    ∀ (files : List MatchedFile) (out : String) (d d' : DestFS),
      copyFiles read files out d = .ok d' →
      ∀ q, lookupFile d'.files q =
        (lastWriteContent read out files q).or (lookupFile d.files q) := by
  intro files
  induction files with
  | nil =>
    intro out d d' h q
    cases h
    simp [lastWriteContent, Option.or]
  | cons g rest ih =>
    intro out d d' h q
    unfold copyFiles at h
    cases hr : read g.absolute with
    | none => rw [hr] at h; cases h
    | some c =>
      rw [hr] at h
      have := ih out _ d' h q
      rw [this]
      have hw : lookupFile (writeFile (mkdirRec d (dirname (pathJoin out g.relative))) (pathJoin out g.relative) c).files q =
          if q = pathJoin out g.relative then some c else lookupFile d.files q := by
        rw [lookupFile_writeFile]
        rw [mkdirRec_files]
      rw [hw]
      have hlw : lastWriteContent read out (g :: rest) q =
          (lastWriteContent read out rest q).or
            (if pathJoin out g.relative = q then read g.absolute else none) := rfl
      rw [hlw, hr]
      by_cases hq : pathJoin out g.relative = q
      · rw [if_pos hq, if_pos hq.symm]
        cases lastWriteContent read out rest q <;> rfl
      · rw [if_neg hq, if_neg (fun h' => hq h'.symm)]
        cases lastWriteContent read out rest q <;> rfl

/-- Directories only accumulate during a pass. -/
theorem copyFiles_dirs_mono (read : String → Option String) :
    ∀ (files : List MatchedFile) (out : String) (d d' : DestFS),
      copyFiles read files out d = .ok d' →
      ∀ a ∈ d.dirs, a ∈ d'.dirs := by
  intro files
  induction files with
  | nil => intro out d d' h a ha; cases h; exact ha
  | cons g rest ih =>
    intro out d d' h a ha
    unfold copyFiles at h
    cases hr : read g.absolute with
    | none => rw [hr] at h; cases h
    | some c =>
      rw [hr] at h
      exact ih out _ d' h a (by
        rw [writeFile_dirs]
        exact mem_mkdirRec_of_mem d _ a ha)

/-- A successful pass created every ancestor of every destination
directory it wrote into. -/
theorem copyFiles_creates_dirs (read : String → Option String) :
    ∀ (files : List MatchedFile) (out : String) (d d' : DestFS),
      copyFiles read files out d = .ok d' →
      ∀ f ∈ files, ∀ a ∈ dirAncestors (dirname (pathJoin out f.relative)), a ∈ d'.dirs := by
  intro files
  induction files with
  | nil => intro out d d' _ f hf; cases hf
  | cons g rest ih =>
    intro out d d' h f hf a ha
    unfold copyFiles at h
    cases hr : read g.absolute with
    | none => rw [hr] at h; cases h
    | some c =>
      rw [hr] at h
      rcases List.mem_cons.mp hf with rfl | hf'
      · exact copyFiles_dirs_mono read rest out _ d' h a (by
          rw [writeFile_dirs]
          exact mem_mkdirRec_of_ancestor d _ a ha)
      · exact ih out _ d' h f hf' a ha

/-- If every directory a pass would create is already present, the pass
leaves the directory set untouched. -/
theorem copyFiles_dirs_stable (read : String → Option String) :
    ∀ (files : List MatchedFile) (out : String) (d d' : DestFS),
      copyFiles read files out d = .ok d' →
      (∀ f ∈ files, ∀ a ∈ dirAncestors (dirname (pathJoin out f.relative)), a ∈ d.dirs) →
      d'.dirs = d.dirs := by
  intro files
  induction files with
  | nil => intro out d d' h _; cases h; rfl
  | cons g rest ih =>
    intro out d d' h hanc
    unfold copyFiles at h
    cases hr : read g.absolute with
    | none => rw [hr] at h; cases h
    | some c =>
      rw [hr] at h
      have hmk : mkdirRec d (dirname (pathJoin out g.relative)) = d :=
        mkdirRec_of_present d _ (hanc g (List.mem_cons_self g rest))
      have hd : d'.dirs = (writeFile (mkdirRec d (dirname (pathJoin out g.relative)))
          (pathJoin out g.relative) c).dirs :=
        ih out _ d' h (by
          intro f hf a ha
          rw [writeFile_dirs]
          exact mem_mkdirRec_of_mem d _ a (hanc f (List.mem_cons_of_mem g hf) a ha))
      rw [hd, writeFile_dirs, hmk]


/-! ## Lemmas about aggregation -/

/-- The aggregated match list of a successful pass is the concatenation
of the per-pattern match lists, in command-line order. -/
theorem collectMatches_flatten (stat : String → Option StatKind) (treeAt : String → FSTree)
    (mm : String → String → MatchOptions → Bool) (cwd : String) :
    ∀ (ps : List String) (ms : List MatchedFile) (ws : List String),
      collectMatches stat treeAt mm cwd ps = .ok (ms, ws) →
      ms = (ps.map (patternMatches stat treeAt mm cwd)).flatten := by
  intro ps
  induction ps with
  | nil => intro ms ws h; cases h; rfl
  | cons p rest ih =>
    intro ms ws h
    unfold collectMatches at h
    cases hp : processPattern stat treeAt mm cwd p with
    | error e => rw [hp] at h; cases h
    | ok pr =>
      obtain ⟨pm, pw⟩ := pr
      rw [hp] at h
      cases hr : collectMatches stat treeAt mm cwd rest with
      | error e => rw [hr] at h; cases h
      | ok rr =>
        obtain ⟨rm, rw'⟩ := rr
        rw [hr] at h
        cases h
        have hpm : patternMatches stat treeAt mm cwd p = pm := by
          unfold patternMatches; rw [hp]
        rw [List.map_cons, List.flatten_cons, hpm, ih rm rw' hr]

/-- Occurrence counts distribute over the concatenation. -/
theorem count_flatten_matched (m : MatchedFile) :
    ∀ ls : List (List MatchedFile),
      ls.flatten.count m = (ls.map (fun l => l.count m)).sum := by
  intro ls
  induction ls with
  | nil => rfl
  | cons l ls ih => simp [List.flatten_cons, List.count_append, ih]

/-! ## Claims -/

/-- C1 (counterexample): for the pattern `*/x.png`, whose first
wildcard sits at index 0, the resolver does not follow the claimed
algorithm: it returns the wildcard-containing relative string `*`
(`path.dirname` of the pattern) where the claimed computation yields
the absolute directory `/r`. -/
theorem findGlobBase_wildcard_at_zero_counterexample :
    findGlobBase "/r" "*/x.png" = "*" ∧ findGlobBaseSpec "/r" "*/x.png" = "/r" ∧
      findGlobBase "/r" "*/x.png" ≠ findGlobBaseSpec "/r" "*/x.png" := by
  refine ⟨rfl, rfl, ?_⟩
  decide

/-- C1 (amended): whenever the first wildcard of the normalized pattern
is not at index 0 — in particular for every pattern the tool actually
passes in, which are pre-resolved absolute paths — `findGlobBase`
computes exactly the claimed algorithm: substring before the first
wildcard, truncated at the last separator, resolved to an absolute
path; and a pattern with no wildcard resolves to its direct parent
directory. -/
theorem findGlobBase_matches_spec_algorithm (cwd pattern : String)
    (h : firstGlobIndex (normalizePath pattern) ≠ some 0) :
    findGlobBase cwd pattern = findGlobBaseSpec cwd pattern := by
  cases hi : firstGlobIndex (normalizePath pattern) with
  | none =>
    simp only [findGlobBase, findGlobBaseSpec]
    rw [hi]
  | some i =>
    cases i with
    | zero => exact absurd hi h
    | succ n =>
      simp only [findGlobBase, findGlobBaseSpec]
      rw [hi]
      rfl

/-- C1 witness: `assets/img-*.png` resolves to the `assets` directory
(under cwd `/r`), not `assets/img-` and not the root. -/
theorem findGlobBase_matches_spec_algorithm_witness :
    firstGlobIndex (normalizePath "assets/img-*.png") ≠ some 0 ∧
    findGlobBase "/r" "assets/img-*.png" = findGlobBaseSpec "/r" "assets/img-*.png" ∧
    findGlobBase "/r" "assets/img-*.png" = "/r/assets" :=
  ⟨by decide, findGlobBase_matches_spec_algorithm "/r" "assets/img-*.png" (by decide), by decide⟩

/-- Helper for C9: folding further events that all arrive strictly
inside the pending timer's quiet period never fires the timer, only
pushes the deadline. -/
theorem foldl_stepEvent_within (delay : Nat) :
    ∀ (rest : List Nat) (t n : Nat), withinWindow delay (t :: rest) = true →
      ∃ u, rest.foldl (stepEvent delay) ⟨some (t + delay), n⟩ =
        ⟨some (u + delay), n⟩ := by
  intro rest
  induction rest with
  | nil => intro t n _; exact ⟨t, rfl⟩
  | cons t₂ rest ih =>
    intro t n h
    have hw : (t ≤ t₂ && t₂ < t + delay) = true ∧ withinWindow delay (t₂ :: rest) = true := by
      simpa [withinWindow, Bool.and_eq_true] using h
    have hlt : t₂ < t + delay := by
      have := hw.1
      simp [Bool.and_eq_true] at this
      exact this.2
    have hstep : stepEvent delay ⟨some (t + delay), n⟩ t₂ = ⟨some (t₂ + delay), n⟩ := by
      unfold stepEvent
      simp [Nat.not_le.mpr hlt]
    rw [List.foldl_cons, hstep]
    exact ih t₂ n hw.2

/-- C9: change events form a burst — chronological, each arriving
strictly within the fixed 100ms quiet period of its predecessor — then
the debounce coalesces them: exactly one re-synchronization pass fires
once the quiet period elapses, not one per event.  Moreover every
event cancels any pending timer and re-arms it for 100ms later. -/
theorem debounce_coalesces_burst (events : List Nat) (hne : events ≠ [])
    (hw : withinWindow debounceDelayMs events = true) :
    (runEvents debounceDelayMs events).fires = 1 ∧
    (∀ (s : DebounceState) (t : Nat),
      (stepEvent debounceDelayMs s t).deadline = some (t + debounceDelayMs)) := by
  constructor
  · cases events with
    | nil => exact absurd rfl hne
    | cons t rest =>
      unfold runEvents
      rw [List.foldl_cons]
      have hstep : stepEvent debounceDelayMs ⟨none, 0⟩ t = ⟨some (t + debounceDelayMs), 0⟩ := by
        unfold stepEvent; rfl
      rw [hstep]
      obtain ⟨u, hu⟩ := foldl_stepEvent_within debounceDelayMs rest t 0 hw
      rw [hu]
  · intro s t
    unfold stepEvent
    cases s.deadline <;> simp

/-- C9 witness: three rapid events at 0ms, 30ms and 60ms trigger
exactly one pass. -/
theorem debounce_coalesces_burst_witness :
    ([0, 30, 60] : List Nat) ≠ [] ∧ withinWindow debounceDelayMs [0, 30, 60] = true ∧
    (runEvents debounceDelayMs [0, 30, 60]).fires = 1 :=
  ⟨by decide, by decide,
    (debounce_coalesces_burst [0, 30, 60] (by decide) (by decide)).1⟩

/-- C10 (counterexample): the string `undefined` that `env.get`
returns for an absent key with no default has nine characters, not the
six the claim states. -/
theorem envGet_undefined_length_counterexample :
    envGet (fun _ => none) "MISSING" none = "undefined" ∧
    (envGet (fun _ => none) "MISSING" none).length = 9 ∧
    (envGet (fun _ => none) "MISSING" none).length ≠ 6 := by
  refine ⟨rfl, by decide, by decide⟩

/-- C10 (amended): a key absent from the environment with no default
yields the literal nine-character string `undefined` (the omitted
argument is template-interpolated), and a key bound to the empty
string yields the stringified default rather than the empty string
(falsy values fall through to the default). -/
theorem envGet_absent_and_empty (env : String → Option String) (key : String) :
    (env key = none →
      envGet env key none = "undefined" ∧ ("undefined" : String).length = 9) ∧
    (∀ dv : String, env key = some "" → envGet env key (some dv) = dv) := by
  constructor
  · intro h
    unfold envGet
    rw [h]
    exact ⟨rfl, by decide⟩
  · intro dv h
    unfold envGet
    rw [h]
    simp [jsTemplate]

/-- C10 witness: a concrete environment with `EMPTY` set to the empty
string and `MISSING` unset. -/
theorem envGet_absent_and_empty_witness :
    envGet (fun k => if k = "EMPTY" then some "" else none) "MISSING" none = "undefined" ∧
    envGet (fun k => if k = "EMPTY" then some "" else none) "EMPTY" (some "fallback") = "fallback" :=
  ⟨((envGet_absent_and_empty (fun k => if k = "EMPTY" then some "" else none) "MISSING").1
      (by decide)).1,
    (envGet_absent_and_empty (fun k => if k = "EMPTY" then some "" else none) "EMPTY").2
      "fallback" (by decide)⟩

/-- C2 (counterexample): a watch-mode re-sync pass over a world where
the glob matches nothing is a failed pass (the spec's "zero matches
overall" fatal error), yet it calls `process.exit(1)` inside
`processAllPatterns` — which the debounce callback's `try/catch` cannot
intercept — so the watch session terminates instead of continuing. -/
theorem watch_zero_match_pass_terminates :
    watchPassOutcome (processAllPatterns exStat exTreeAt exMM exReadNone "/r"
      ["/w/a*.txt"] "/out" ⟨[], []⟩) = .terminated 1 := rfl

/-- C2 (amended): every error a debounce-triggered re-synchronization
pass raises (for example a filesystem failure during copy) is caught
by the callback's `try/catch` and logged, and the watch session
continues; but a pass whose aggregated match list is empty calls
`process.exit(1)` directly, which is not a raised error and terminates
the process even in watch mode. -/
theorem watch_raised_error_caught (stat : String → Option StatKind) (treeAt : String → FSTree)
    (mm : String → String → MatchOptions → Bool) (read : String → Option String)
    (cwd : String) (patterns : List String) (out : String) (d : DestFS) (e : String)
    (h : processAllPatterns stat treeAt mm read cwd patterns out d = .raised e) :
    watchPassOutcome (processAllPatterns stat treeAt mm read cwd patterns out d) =
      .continues (some ("[copy-files] Error during file copy: " ++ e)) ∧
    (∀ c : Nat, watchPassOutcome (processAllPatterns stat treeAt mm read cwd patterns out d) ≠
      .terminated c) := by
  rw [h]
  exact ⟨rfl, fun c hc => WatchOutcome.noConfusion hc⟩

/-- C2 witness: a copy failure (unreadable source) raises, is caught
and logged, and the session continues. -/
theorem watch_raised_error_caught_witness :
    processAllPatterns exStat exTreeAt exMM exReadNone "/r" ["/w/logo.png"] "/out" ⟨[], []⟩ =
      .raised "EACCES: copyFile /w/logo.png" ∧
    watchPassOutcome (processAllPatterns exStat exTreeAt exMM exReadNone "/r" ["/w/logo.png"]
      "/out" ⟨[], []⟩) =
      .continues (some "[copy-files] Error during file copy: EACCES: copyFile /w/logo.png") :=
  ⟨rfl, (watch_raised_error_caught exStat exTreeAt exMM exReadNone "/r" ["/w/logo.png"]
    "/out" ⟨[], []⟩ "EACCES: copyFile /w/logo.png" rfl).1⟩

/-- C6: an argument with no wildcard characters is treated as a
literal file path: an existing regular file contributes exactly one
match whose relative path is its basename; anything else (missing path
or non-file) contributes a warning and zero matches, returning
normally rather than raising. -/
theorem literal_pattern_processing (stat : String → Option StatKind) (treeAt : String → FSTree)
    (mm : String → String → MatchOptions → Bool) (cwd pattern : String)
    (h : hasGlobChars pattern = false) :
    (stat pattern = some .fileKind →
      processPattern stat treeAt mm cwd pattern =
        .ok ([{ absolute := pattern, relative := basename pattern }], [])) ∧
    (stat pattern ≠ some .fileKind →
      processPattern stat treeAt mm cwd pattern =
        .ok ([], ["Warning: Pattern \"" ++ pattern ++ "\" matches no files"])) := by
  constructor
  · intro hs
    simp [processPattern, h, hs]
  · intro hs
    cases hstat : stat pattern with
    | none => simp [processPattern, h, hstat]
    | some k =>
      cases k with
      | fileKind => exact absurd hstat hs
      | dirKind => simp [processPattern, h, hstat]
      | otherKind => simp [processPattern, h, hstat]

/-- C6 witness: the existing literal `/w/logo.png` lands at
`/out/logo.png` (basename only), and a missing literal warns and
yields nothing. -/
theorem literal_pattern_processing_witness :
    hasGlobChars "/w/logo.png" = false ∧
    processPattern exStat exTreeAt exMM "/r" "/w/logo.png" =
      .ok ([{ absolute := "/w/logo.png", relative := "logo.png" }], []) ∧
    pathJoin "/out" (basename "/w/logo.png") = "/out/logo.png" ∧
    processPattern exStat exTreeAt exMM "/r" "/w/missing.png" =
      .ok ([], ["Warning: Pattern \"/w/missing.png\" matches no files"]) :=
  ⟨by decide,
    (literal_pattern_processing exStat exTreeAt exMM "/r" "/w/logo.png" (by decide)).1 (by decide),
    by decide,
    (literal_pattern_processing exStat exTreeAt exMM "/r" "/w/missing.png" (by decide)).2
      (by decide)⟩

/-- C7: the aggregated file list of a pass is the concatenation of the
per-pattern match lists in command-line order, with no deduplication —
a file matched by two patterns is counted (and hence copied) once per
occurrence — and the copier runs on exactly that concatenated list. -/
theorem aggregation_concat_no_dedup (stat : String → Option StatKind) (treeAt : String → FSTree)
    (mm : String → String → MatchOptions → Bool) (read : String → Option String)
    (cwd : String) (patterns : List String) (out : String)
    (ms : List MatchedFile) (ws : List String)
    (h : collectMatches stat treeAt mm cwd patterns = .ok (ms, ws)) :
    ms = (patterns.map (patternMatches stat treeAt mm cwd)).flatten ∧
    (∀ m : MatchedFile, ms.count m =
      (patterns.map (fun p => (patternMatches stat treeAt mm cwd p).count m)).sum) ∧
    (ms ≠ [] → ∀ d : DestFS,
      processAllPatterns stat treeAt mm read cwd patterns out d =
        match copyFiles read ms out d with
        | .ok d' => .completed ms.length d'
        | .error e => .raised e) := by
  have h1 := collectMatches_flatten stat treeAt mm cwd patterns ms ws h
  refine ⟨h1, ?_, ?_⟩
  · intro m
    rw [h1, count_flatten_matched, List.map_map]
    rfl
  · intro hne d
    have hlen : ¬ ms.length = 0 := fun hl => hne (List.length_eq_zero.mp hl)
    simp only [processAllPatterns, h, if_neg hlen]
    cases copyFiles read ms out d <;> rfl

/-- C7 witness: the same literal pattern given twice contributes the
same file twice — the aggregated list has it with multiplicity 2. -/
theorem aggregation_concat_no_dedup_witness :
    collectMatches exStat exTreeAt exMM "/r" ["/w/logo.png", "/w/logo.png"] =
      .ok ([{ absolute := "/w/logo.png", relative := "logo.png" },
            { absolute := "/w/logo.png", relative := "logo.png" }], []) ∧
    ([{ absolute := "/w/logo.png", relative := "logo.png" },
      { absolute := "/w/logo.png", relative := "logo.png" }] : List MatchedFile) =
      ((["/w/logo.png", "/w/logo.png"] : List String).map
        (patternMatches exStat exTreeAt exMM "/r")).flatten ∧
    ([{ absolute := "/w/logo.png", relative := "logo.png" },
      { absolute := "/w/logo.png", relative := "logo.png" }] : List MatchedFile).count
        { absolute := "/w/logo.png", relative := "logo.png" } = 2 :=
  ⟨rfl,
    (aggregation_concat_no_dedup exStat exTreeAt exMM exReadNone "/r"
      ["/w/logo.png", "/w/logo.png"] "/out" _ _ rfl).1,
    by decide⟩

/-- C8: when the aggregated match list of a pass is empty the tool
prints `Error: No files matched the specified patterns` and exits with
code 1 before copying anything (the destination state is untouched);
with a non-empty list the pass never takes the exit path, so the
zero-match exit is distinct from per-pattern warnings. -/
theorem zero_matches_fatal_exit (stat : String → Option StatKind) (treeAt : String → FSTree)
    (mm : String → String → MatchOptions → Bool) (read : String → Option String)
    (cwd : String) (patterns : List String) (out : String) (d : DestFS)
    (ms : List MatchedFile) (ws : List String)
    (h : collectMatches stat treeAt mm cwd patterns = .ok (ms, ws)) :
    (ms = [] → processAllPatterns stat treeAt mm read cwd patterns out d =
      .exited 1 "Error: No files matched the specified patterns" d) ∧
    (ms ≠ [] → ∀ (c : Nat) (msg : String) (d' : DestFS),
      processAllPatterns stat treeAt mm read cwd patterns out d ≠ .exited c msg d') := by
  constructor
  · intro he
    subst he
    simp only [processAllPatterns, h]
    rfl
  · intro hne c msg d'
    have hlen : ¬ ms.length = 0 := fun hl => hne (List.length_eq_zero.mp hl)
    simp only [processAllPatterns, h, if_neg hlen]
    cases copyFiles read ms out d <;> simp

/-- C8 witness: a single glob matching nothing makes the pass exit 1
with the explanatory message, leaving the destination untouched. -/
theorem zero_matches_fatal_exit_witness :
    collectMatches exStat exTreeAt exMM "/r" ["/w/a*.txt"] = .ok ([], []) ∧
    processAllPatterns exStat exTreeAt exMM exReadNone "/r" ["/w/a*.txt"] "/out" ⟨[], []⟩ =
      .exited 1 "Error: No files matched the specified patterns" ⟨[], []⟩ :=
  ⟨rfl, (zero_matches_fatal_exit exStat exTreeAt exMM exReadNone "/r" ["/w/a*.txt"]
    "/out" ⟨[], []⟩ [] [] rfl).1 rfl⟩

/-- Helper for C3: the last write a pass performs to the destination
path of one of its own files exists whenever every source read
succeeds. -/
theorem lastWriteContent_isSome (read : String → Option String) (out : String) :
    ∀ (files : List MatchedFile) (m : MatchedFile), m ∈ files →
      (∀ f ∈ files, (read f.absolute).isSome = true) →
      (lastWriteContent read out files (pathJoin out m.relative)).isSome = true := by
  intro files
  induction files with
  | nil => intro m hm; cases hm
  | cons g rest ih =>
    intro m hm hr
    rcases List.mem_cons.mp hm with rfl | hm'
    · cases hlw : lastWriteContent read out rest (pathJoin out m.relative) with
      | some a => simp [lastWriteContent, hlw, Option.or]
      | none =>
        have hrm : (read m.absolute).isSome = true := hr m (List.mem_cons_self m rest)
        simp only [lastWriteContent, hlw, if_pos rfl]
        simpa [Option.or] using hrm
    · have hsome := ih m hm' (fun f hf => hr f (List.mem_cons_of_mem g hf))
      cases hlw : lastWriteContent read out rest (pathJoin out m.relative) with
      | some a => simp [lastWriteContent, hlw, Option.or]
      | none => rw [hlw] at hsome; cases hsome

/-- Helper for C3: every match a glob pattern contributes carries the
relative path computed against that pattern's resolved base
directory. -/
theorem processPattern_glob_relative (stat : String → Option StatKind) (treeAt : String → FSTree)
    (mm : String → String → MatchOptions → Bool) (cwd pattern : String)
    (ms : List MatchedFile) (ws : List String)
    (hg : hasGlobChars pattern = true)
    (h : processPattern stat treeAt mm cwd pattern = .ok (ms, ws)) :
    ∀ m ∈ ms, m.relative = pathRelative cwd (findGlobBase cwd pattern) m.absolute := by
  unfold processPattern at h
  rw [if_pos hg] at h
  dsimp only at h
  cases hstat : stat (findGlobBase cwd pattern) with
  | none =>
    rw [hstat] at h
    cases h
    intro m hm
    cases hm
  | some k =>
    cases k with
    | fileKind =>
      rw [hstat] at h
      cases h
      intro m hm
      cases hm
    | otherKind =>
      rw [hstat] at h
      cases h
      intro m hm
      cases hm
    | dirKind =>
      rw [hstat] at h
      cases hf : findFilesT mm cwd (normalizePath pattern) (findGlobBase cwd pattern)
          (findGlobBase cwd pattern) (treeAt (findGlobBase cwd pattern)) with
      | error e => rw [hf] at h; cases h
      | ok fs =>
        rw [hf] at h
        cases h
        exact findFilesT_relative mm cwd (normalizePath pattern) (findGlobBase cwd pattern)
          (findGlobBase cwd pattern) (treeAt (findGlobBase cwd pattern)) ms hf

/-- C5: over a directory tree whose every directory is readable, the
recursive finder succeeds and returns exactly the regular files of the
tree (recursing into every subdirectory, hidden dotfiles included —
filtering happens solely through the matcher, which is invoked with
`dot := true`) paired with base-relative paths; and whenever some
directory of the tree cannot be read, the error propagates to the
caller instead of being swallowed. -/
theorem findFiles_exactly_matching_files (mm : String → String → MatchOptions → Bool)
    (cwd pattern baseDir dir name : String) (rok : Bool) (es : FSList) :
    (treeReadableT (.dir name rok es) = true →
      findFilesT mm cwd pattern baseDir dir (.dir name rok es) =
        .ok (((specFilesT dir (.dir name rok es)).filter
          (fun p => mm (normalizePath p) pattern { dot := true })).map
          (fun p => { absolute := p, relative := pathRelative cwd baseDir p }))) ∧
    (treeReadableT (.dir name rok es) = false →
      ∃ e, findFilesT mm cwd pattern baseDir dir (.dir name rok es) = .error e) :=
  ⟨findT_ok mm cwd pattern baseDir dir name rok es,
   findT_err mm cwd pattern baseDir dir name rok es⟩

/-- C5 witness: the example tree (with the hidden `.env` included in
the result) and the tree with an unreadable subdirectory (where the
walk raises). -/
theorem findFiles_exactly_matching_files_witness :
    treeReadableT exTree = true ∧
    findFilesT exMMAll "/r" "/r/src/**" "/r/src" "/r/src" exTree =
      .ok [{ absolute := "/r/src/a/b/icon.svg", relative := "a/b/icon.svg" },
           { absolute := "/r/src/.env", relative := ".env" }] ∧
    treeReadableT exTreeBad = false ∧
    (∃ e, findFilesT exMMAll "/r" "/r/src/**" "/r/src" "/r/src" exTreeBad = .error e) :=
  ⟨rfl,
    (findFiles_exactly_matching_files exMMAll "/r" "/r/src/**" "/r/src" "/r/src" "src" true
      (.cons (.dir "a" true (.cons (.dir "b" true (.cons (.file "icon.svg") .nil)) .nil))
        (.cons (.file ".env") .nil))).1 rfl,
    rfl,
    (findFiles_exactly_matching_files exMMAll "/r" "/r/src/**" "/r/src" "/r/src" "src" true
      (.cons (.dir "a" false .nil) .nil)).2 rfl⟩

/-- C3: every file a glob pattern matches carries a relative path
computed against the pattern's resolved base directory (not the
pattern string), and a successful copy pass places each such file at
the destination root joined with that relative path, with every
missing intermediate directory created. -/
theorem glob_matches_copied_under_relative_path (stat : String → Option StatKind)
    (treeAt : String → FSTree) (mm : String → String → MatchOptions → Bool)
    (read : String → Option String) (cwd pattern out : String) (d d₁ : DestFS)
    (ms : List MatchedFile) (ws : List String)
    (hg : hasGlobChars pattern = true)
    (hp : processPattern stat treeAt mm cwd pattern = .ok (ms, ws))
    (hc : copyFiles read ms out d = .ok d₁) :
    ∀ m ∈ ms,
      m.relative = pathRelative cwd (findGlobBase cwd pattern) m.absolute ∧
      (lookupFile d₁.files (pathJoin out m.relative)).isSome = true ∧
      (∀ a ∈ dirAncestors (dirname (pathJoin out m.relative)), a ∈ d₁.dirs) := by
  intro m hm
  refine ⟨processPattern_glob_relative stat treeAt mm cwd pattern ms ws hg hp m hm, ?_,
    copyFiles_creates_dirs read ms out d d₁ hc m hm⟩
  have hreads := copyFiles_ok_reads read ms out d d₁ hc
  have hlw := lastWriteContent_isSome read out ms m hm hreads
  have hlook := copyFiles_lookup read ms out d d₁ hc (pathJoin out m.relative)
  rw [hlook]
  cases hlw2 : lastWriteContent read out ms (pathJoin out m.relative) with
  | none => rw [hlw2] at hlw; cases hlw
  | some a => rfl

/-- C3 witness: `/r/src/**/*.svg` matches `/r/src/a/b/icon.svg`, whose
relative path `a/b/icon.svg` is computed against the base `/r/src`,
and the copy lands at `/out/a/b/icon.svg` with `/out/a/b` created. -/
theorem glob_matches_copied_under_relative_path_witness :
    hasGlobChars "/r/src/**/*.svg" = true ∧
    processPattern exStat exTreeAt exMM "/r" "/r/src/**/*.svg" =
      .ok ([{ absolute := "/r/src/a/b/icon.svg", relative := "a/b/icon.svg" }], []) ∧
    copyFiles exRead [{ absolute := "/r/src/a/b/icon.svg", relative := "a/b/icon.svg" }]
      "/out" ⟨[], []⟩ =
      .ok ⟨["/out", "/out/a", "/out/a/b"], [("/out/a/b/icon.svg", "SVG")]⟩ ∧
    ({ absolute := "/r/src/a/b/icon.svg", relative := "a/b/icon.svg" } : MatchedFile).relative =
      pathRelative "/r" (findGlobBase "/r" "/r/src/**/*.svg") "/r/src/a/b/icon.svg" ∧
    lookupFile [("/out/a/b/icon.svg", "SVG")] (pathJoin "/out" "a/b/icon.svg") = some "SVG" :=
  ⟨rfl, rfl, rfl,
    (glob_matches_copied_under_relative_path exStat exTreeAt exMM exRead "/r" "/r/src/**/*.svg"
      "/out" ⟨[], []⟩ ⟨["/out", "/out/a", "/out/a/b"], [("/out/a/b/icon.svg", "SVG")]⟩
      [{ absolute := "/r/src/a/b/icon.svg", relative := "a/b/icon.svg" }] [] rfl rfl rfl
      { absolute := "/r/src/a/b/icon.svg", relative := "a/b/icon.svg" }
      (List.mem_singleton.mpr rfl)).1,
    by decide⟩

/-- C4: the copier overwrites unconditionally — after a successful
pass the destination content at every path is the pass's last write
there when one exists (whatever was there before never enters the
comparison), otherwise the prior content — and re-running the same
pass over the resulting state succeeds and changes nothing: same
directory set, byte-identical file contents everywhere. -/
theorem copy_overwrites_and_idempotent (read : String → Option String)
    (files : List MatchedFile) (out : String) (d d₁ : DestFS)
    (h : copyFiles read files out d = .ok d₁) :
    (∀ q, lookupFile d₁.files q =
      (lastWriteContent read out files q).or (lookupFile d.files q)) ∧
    ∃ d₂, copyFiles read files out d₁ = .ok d₂ ∧
      d₂.dirs = d₁.dirs ∧ (∀ q, lookupFile d₂.files q = lookupFile d₁.files q) := by
  have hlook := copyFiles_lookup read files out d d₁ h
  refine ⟨hlook, ?_⟩
  have hreads := copyFiles_ok_reads read files out d d₁ h
  obtain ⟨d₂, hd₂⟩ := copyFiles_ok_of_reads read files out hreads d₁
  refine ⟨d₂, hd₂, ?_, ?_⟩
  · exact copyFiles_dirs_stable read files out d₁ d₂ hd₂
      (fun f hf a ha => copyFiles_creates_dirs read files out d d₁ h f hf a ha)
  · intro q
    have h2 := copyFiles_lookup read files out d₁ d₂ hd₂ q
    rw [h2, hlook q, option_or_self_left]

/-- C4 witness: a pass over a destination already holding stale
content for `/out/.env` overwrites it with the source bytes, and a
second identical pass reproduces the destination exactly. -/
theorem copy_overwrites_and_idempotent_witness :
    copyFiles exRead
      [{ absolute := "/r/src/a/b/icon.svg", relative := "a/b/icon.svg" },
       { absolute := "/r/src/.env", relative := ".env" }] "/out"
      ⟨[], [("/out/.env", "stale")]⟩ =
      .ok ⟨["/out", "/out/a", "/out/a/b"],
           [("/out/a/b/icon.svg", "SVG"), ("/out/.env", "ENV")]⟩ ∧
    lookupFile [("/out/a/b/icon.svg", "SVG"), ("/out/.env", "ENV")] "/out/.env" = some "ENV" ∧
    (∃ d₂, copyFiles exRead
        [{ absolute := "/r/src/a/b/icon.svg", relative := "a/b/icon.svg" },
         { absolute := "/r/src/.env", relative := ".env" }] "/out"
        ⟨["/out", "/out/a", "/out/a/b"],
         [("/out/a/b/icon.svg", "SVG"), ("/out/.env", "ENV")]⟩ = .ok d₂ ∧
      d₂.dirs = ["/out", "/out/a", "/out/a/b"] ∧
      (∀ q, lookupFile d₂.files q =
        lookupFile [("/out/a/b/icon.svg", "SVG"), ("/out/.env", "ENV")] q)) :=
  ⟨rfl, by decide,
    (copy_overwrites_and_idempotent exRead
      [{ absolute := "/r/src/a/b/icon.svg", relative := "a/b/icon.svg" },
       { absolute := "/r/src/.env", relative := ".env" }] "/out"
      ⟨[], [("/out/.env", "stale")]⟩
      ⟨["/out", "/out/a", "/out/a/b"],
       [("/out/a/b/icon.svg", "SVG"), ("/out/.env", "ENV")]⟩ rfl).2⟩

end BoringSSR
